import Mathlib

/-!
Shallow embedding of the core of `polymarket_auto_trader`
(order-book cache, execution pricing, resilience primitives, settlement
ledger), translated from the Python source:

* `src/infra/resilience.py` — `CircuitBreaker`, `RateLimiter`, `categorize_error`
* `src/core/polymarket_ws.py` — `CachedOrderBook`
* `src/core/polymarket.py` — `DelayImpactModel`, `PolymarketClient.get_execution_price`
* `src/core/trader.py` — `Trade`, `TradingState.settle_trade`

Python floats are modelled as `ℚ` (exact field arithmetic), except for the
delay-impact model whose `math.sqrt` forces `ℝ`.  Python wall-clock times
(`time.time()`) are passed explicitly as `ℚ` arguments.
-/

namespace PolyTrader

/-! ## Circuit breaker (`src/infra/resilience.py`) -/

/-- `CircuitState` enum: CLOSED / OPEN / HALF_OPEN. -/
inductive CircuitState where
  | CLOSED
  | OPEN
  | HALF_OPEN
deriving DecidableEq, Repr

/-- The mutable fields of the `CircuitBreaker` dataclass.  Statistics-only
fields (`total_calls`, `total_blocked`, `state_changes`, …) are omitted:
no control flow reads them.  Defaults are the `Config` defaults
(`CIRCUIT_BREAKER_THRESHOLD = 5`, `CIRCUIT_BREAKER_RECOVERY_TIME = 60`,
`half_open_max_calls = 3`). -/
structure CircuitBreaker where
  failure_threshold : ℕ := 5
  recovery_time : ℚ := 60
  half_open_max_calls : ℕ := 3
  state : CircuitState := CircuitState.CLOSED
  failures : ℕ := 0
  successes : ℕ := 0
  last_failure_time : ℚ := 0
  half_open_calls : ℕ := 0
deriving DecidableEq, Repr

namespace CircuitBreaker

/-- `CircuitBreaker._transition_to`: sets the new state; entering HALF_OPEN
resets `_half_open_calls`, entering CLOSED resets `_failures` and
`_successes`. -/
def transition_to (cb : CircuitBreaker) (new_state : CircuitState) : CircuitBreaker :=
  let cb := { cb with state := new_state }
  match new_state with
  | CircuitState.HALF_OPEN => { cb with half_open_calls := 0 }
  | CircuitState.CLOSED => { cb with failures := 0, successes := 0 }
  | CircuitState.OPEN => cb

/-- The `CircuitBreaker.state` property read at wall-clock time `now`:
lazily transitions OPEN → HALF_OPEN once
`now - _last_failure_time >= recovery_time`.  Returns the updated breaker;
the value the Python property returns is `(readState cb now).state`. -/
def readState (cb : CircuitBreaker) (now : ℚ) : CircuitBreaker :=
  if cb.state = CircuitState.OPEN ∧ cb.recovery_time ≤ now - cb.last_failure_time then
    transition_to cb CircuitState.HALF_OPEN
  else cb

/-- `CircuitBreaker.allow_request` at time `now`: reads `state` (which may
transition OPEN → HALF_OPEN), then CLOSED passes, OPEN blocks, HALF_OPEN
admits up to `half_open_max_calls` probes. -/
def allow_request (cb : CircuitBreaker) (now : ℚ) : Bool × CircuitBreaker :=
  let cb := readState cb now
  match cb.state with
  | CircuitState.CLOSED => (true, cb)
  | CircuitState.OPEN => (false, cb)
  | CircuitState.HALF_OPEN =>
    if cb.half_open_calls < cb.half_open_max_calls then
      (true, { cb with half_open_calls := cb.half_open_calls + 1 })
    else (false, cb)

/-- `CircuitBreaker.record_success`: increments `_successes`; in HALF_OPEN
closes the circuit once `_successes >= half_open_max_calls`; in CLOSED
decrements the failure counter (`max(0, _failures - 1)`, which is `ℕ`
subtraction). -/
def record_success (cb : CircuitBreaker) : CircuitBreaker :=
  let cb := { cb with successes := cb.successes + 1 }
  match cb.state with
  | CircuitState.HALF_OPEN =>
    if cb.half_open_max_calls ≤ cb.successes then transition_to cb CircuitState.CLOSED
    else cb
  | CircuitState.CLOSED => { cb with failures := cb.failures - 1 }
  | CircuitState.OPEN => cb

/-- `CircuitBreaker.record_failure` at time `now`: increments `_failures`,
stamps `_last_failure_time`; HALF_OPEN reopens on any failure; CLOSED opens
once `_failures >= failure_threshold`. -/
def record_failure (cb : CircuitBreaker) (now : ℚ) : CircuitBreaker :=
  let cb := { cb with failures := cb.failures + 1, last_failure_time := now }
  match cb.state with
  | CircuitState.HALF_OPEN => transition_to cb CircuitState.OPEN
  | CircuitState.CLOSED =>
    if cb.failure_threshold ≤ cb.failures then transition_to cb CircuitState.OPEN
    else cb
  | CircuitState.OPEN => cb

end CircuitBreaker

/-- A call against a `CircuitBreaker`, stamped with the wall-clock time at
which it happens. -/
inductive CBEvent where
  | allowReq (now : ℚ)
  | recSuccess
  | recFailure (now : ℚ)
deriving DecidableEq, Repr

/-- One event applied to a breaker; `allowReq` also yields its boolean
answer. -/
def cbStep (cb : CircuitBreaker) : CBEvent → CircuitBreaker × Option Bool
  | CBEvent.allowReq t =>
    let r := cb.allow_request t
    (r.2, some r.1)
  | CBEvent.recSuccess => (cb.record_success, none)
  | CBEvent.recFailure t => (cb.record_failure t, none)

/-- Run a list of events against a breaker. -/
def cbRun (cb : CircuitBreaker) : List CBEvent → CircuitBreaker
  | [] => cb
  | e :: es => cbRun (cbStep cb e).1 es

/-- Longest run of `recFailure` events not broken by a `recSuccess`
(`allowReq` does not interrupt a run): the "consecutive failures" count of
the spec.  Returns the maximum over the whole event list. -/
def maxConsecFailures (evs : List CBEvent) : ℕ :=
  (evs.foldl
    (fun acc e =>
      match e with
      | CBEvent.recFailure _ => (max acc.1 (acc.2 + 1), acc.2 + 1)
      | CBEvent.recSuccess => (acc.1, 0)
      | CBEvent.allowReq _ => acc)
    (0, 0)).1

/-- The breaker built with all `Config` defaults, as `CircuitBreaker(name=…)`
does. -/
def initCB : CircuitBreaker := {}

/-! ## Rate limiter (`src/infra/resilience.py`) -/

/-- The `RateLimiter` dataclass.  `_requests` is the deque of admitted
request timestamps, oldest first.  Defaults are the `Config` defaults
(`RATE_LIMIT_REQUESTS_PER_MINUTE = 120`, `window_size = 60.0`).  The
statistics fields are omitted: no control flow reads them. -/
structure RateLimiter where
  requests_per_minute : ℕ := 120
  window_size : ℚ := 60
  requests : List ℚ := []
deriving DecidableEq, Repr

/-- The trimming loop of `RateLimiter.allow_request`:
`while self._requests and self._requests[0] < window_start: popleft()`. -/
def trimWindow (window_start : ℚ) : List ℚ → List ℚ
  | [] => []
  | t :: ts => if t < window_start then trimWindow window_start ts else t :: ts

namespace RateLimiter

/-- `RateLimiter.allow_request` at time `now`: trims timestamps older than
`now - window_size`, admits (recording `now`) iff fewer than
`requests_per_minute` remain. -/
def allow_request (rl : RateLimiter) (now : ℚ) : Bool × RateLimiter :=
  let reqs := trimWindow (now - rl.window_size) rl.requests
  if reqs.length < rl.requests_per_minute then
    (true, { rl with requests := reqs ++ [now] })
  else (false, { rl with requests := reqs })

/-- `RateLimiter.time_until_allowed` at time `now`: 0 when under the limit,
otherwise `max(0, oldest + window_size - now)`.  (No trimming happens
here — the deque is read as last left by `allow_request`.) -/
def time_until_allowed (rl : RateLimiter) (now : ℚ) : ℚ :=
  if rl.requests.length < rl.requests_per_minute then 0
  else
    match rl.requests with
    | [] => 0
    | oldest :: _ => max 0 (oldest + rl.window_size - now)

end RateLimiter

/-- The timestamps of the admitted calls when the given wall-clock call
times are fed to `allow_request` in order. -/
def rlAdmitted (rl : RateLimiter) : List ℚ → List ℚ
  | [] => []
  | u :: us =>
    let r := rl.allow_request u
    if r.1 then u :: rlAdmitted r.2 us else rlAdmitted r.2 us

/-- The number of admitted timestamps falling in the closed window
`[t, t + w]`. -/
def countWin (w t : ℚ) (admitted : List ℚ) : ℕ :=
  (admitted.filter fun s => decide (t ≤ s) && decide (s ≤ t + w)).length

/-- The limiter built with all `Config` defaults. -/
def initRL : RateLimiter := {}

/-! ## Error classification (`src/infra/resilience.py`) -/

/-- `ErrorCategory` enum. -/
inductive ErrorCategory where
  | RETRYABLE
  | FATAL
  | RATE_LIMITED
  | CIRCUIT_OPEN
deriving DecidableEq, Repr

/-- What `categorize_error` observes of a Python exception: whether it is an
instance of `CircuitOpenError`, and its `str()` representation. -/
structure PyError where
  isCircuitOpenErr : Bool
  msg : String
deriving DecidableEq, Repr

/-- Python's `str.lower()`, as an explicit character map (the messages the
source matches against are ASCII). -/
def strToLower (s : String) : String :=
  ⟨s.data.map Char.toLower⟩

/-- Python's `pat in s` substring test, on explicit character lists. -/
def containsSub (pat : List Char) : List Char → Bool
  | [] => pat.isEmpty
  | c :: rest => pat.isPrefixOf (c :: rest) || containsSub pat rest

/-- `pat in error_str` for strings. -/
def strContains (s pat : String) : Bool :=
  containsSub pat.toList s.toList

/-- `categorize_error(error)` from `src/infra/resilience.py`: lowercases
`str(error)`, then applies the message heuristics in source order, with
`RETRYABLE` as the default. -/
def categorize_error (error : PyError) : ErrorCategory :=
  let error_str := strToLower error.msg
  if error.isCircuitOpenErr then ErrorCategory.CIRCUIT_OPEN
  else if strContains error_str "429" || strContains error_str "rate limit" ||
      strContains error_str "too many requests" then ErrorCategory.RATE_LIMITED
  else if ["500", "502", "503", "504"].any (fun code => strContains error_str code) then
    ErrorCategory.RETRYABLE
  else if strContains error_str "timeout" || strContains error_str "timed out" then
    ErrorCategory.RETRYABLE
  else if strContains error_str "connection" &&
      (strContains error_str "refused" || strContains error_str "reset" ||
        strContains error_str "error") then ErrorCategory.RETRYABLE
  else if ["400", "401", "403", "404", "422"].any (fun code => strContains error_str code) then
    ErrorCategory.FATAL
  else if strContains error_str "invalid" || strContains error_str "validation" then
    ErrorCategory.FATAL
  else if strContains error_str "insufficient" || strContains error_str "balance" then
    ErrorCategory.FATAL
  else ErrorCategory.RETRYABLE

/-! ## Cached order book (`src/core/polymarket_ws.py`) -/

/-- `OrderBookLevel`: a single price level. -/
structure OrderBookLevel where
  price : ℚ
  size : ℚ
deriving DecidableEq, Repr

instance : Inhabited OrderBookLevel := ⟨⟨0, 0⟩⟩

/-- `levels.sort(key=lambda x: x.price, reverse=rev)` — a stable sort by
price, descending when `rev` is true. -/
def sortLevels (rev : Bool) (levels : List OrderBookLevel) : List OrderBookLevel :=
  levels.mergeSort fun a b =>
    if rev then decide (b.price ≤ a.price) else decide (a.price ≤ b.price)

/-- The find-and-replace loop of `CachedOrderBook._update_level`: scans for
the first level whose price is within `0.0001` of `price`; `size == 0` pops
it, otherwise its size is overwritten.  `none` when no level matches. -/
def replaceMatch (price size : ℚ) : List OrderBookLevel → Option (List OrderBookLevel)
  | [] => none
  | l :: ls =>
    if |l.price - price| < 1 / 10000 then
      some (if size = 0 then ls else ⟨l.price, size⟩ :: ls)
    else (replaceMatch price size ls).map (l :: ·)

/-- `CachedOrderBook._update_level`: in-place update when a level within
tolerance exists, otherwise append-and-sort when `size > 0`. -/
def update_level (levels : List OrderBookLevel) (price size : ℚ) (rev : Bool) :
    List OrderBookLevel :=
  match replaceMatch price size levels with
  | some levels => levels
  | none =>
    if 0 < size then sortLevels rev (levels ++ [⟨price, size⟩]) else levels

/-- `CachedOrderBook`: ladders plus the cached best/mid.  `timestamp` is
omitted (wall-clock only; nothing in the claims reads it). -/
structure CachedOrderBook where
  bids : List OrderBookLevel := []
  asks : List OrderBookLevel := []
  best_bid : ℚ := 0
  best_ask : ℚ := 0
  mid : ℚ := 1 / 2
deriving DecidableEq, Repr

/-- One side of a `price_change` entry; messages with any other `side`
string are ignored by the source, so they are not modelled. -/
inductive Side where
  | BUY
  | SELL
deriving DecidableEq, Repr

/-- One entry of a `price_change` delta message. -/
structure Change where
  side : Side
  price : ℚ
  size : ℚ
deriving DecidableEq, Repr

namespace CachedOrderBook

/-- `CachedOrderBook._recalculate`: re-sorts both ladders (bids descending,
asks ascending), refreshes `best_bid`/`best_ask` from the non-empty heads,
and recomputes `mid` when both bests are positive. -/
def recalculate (b : CachedOrderBook) : CachedOrderBook :=
  let b :=
    match sortLevels true b.bids with
    | [] => b
    | l :: ls => { b with bids := l :: ls, best_bid := l.price }
  let b :=
    match sortLevels false b.asks with
    | [] => b
    | l :: ls => { b with asks := l :: ls, best_ask := l.price }
  if 0 < b.best_bid ∧ 0 < b.best_ask then
    { b with mid := (b.best_bid + b.best_ask) / 2 }
  else b

/-- `CachedOrderBook.update_from_snapshot`: replaces both ladders wholesale
(no filtering of the feed's levels), then recalculates. -/
def update_from_snapshot (b : CachedOrderBook)
    (bids asks : List OrderBookLevel) : CachedOrderBook :=
  recalculate { b with bids := bids, asks := asks }

/-- The per-change body of `CachedOrderBook.update_from_delta`. -/
def applyChange (b : CachedOrderBook) (c : Change) : CachedOrderBook :=
  match c.side with
  | Side.BUY => { b with bids := update_level b.bids c.price c.size true }
  | Side.SELL => { b with asks := update_level b.asks c.price c.size false }

/-- `CachedOrderBook.update_from_delta`: applies each change in order, then
recalculates. -/
def update_from_delta (b : CachedOrderBook) (changes : List Change) : CachedOrderBook :=
  recalculate (changes.foldl applyChange b)

end CachedOrderBook

/-- A WebSocket book message: a `"book"` snapshot or a `"price_change"`
delta. -/
inductive BookMsg where
  | snapshot (bids asks : List OrderBookLevel)
  | delta (changes : List Change)
deriving DecidableEq, Repr

/-- Dispatch of one message to the cached book. -/
def applyMsg (b : CachedOrderBook) : BookMsg → CachedOrderBook
  | BookMsg.snapshot bids asks => b.update_from_snapshot bids asks
  | BookMsg.delta changes => b.update_from_delta changes

/-- A fresh `CachedOrderBook(token_id=…)`. -/
def initBook : CachedOrderBook := {}

/-! ## Book walk (`CachedOrderBook.get_execution_price` and
`PolymarketClient.get_execution_price` share this loop verbatim) -/

/-- The walk loop: consume levels best-first, taking
`min(levelNotional, remaining)` at each; returns
`(total_shares, total_cost, remaining)`. -/
def walkBook : List OrderBookLevel → ℚ → ℚ × ℚ × ℚ
  | [], remaining => (0, 0, remaining)
  | l :: ls, remaining =>
    if remaining ≤ 0 then (0, 0, remaining)
    else
      let level_value := l.price * l.size
      if remaining ≤ level_value then (remaining / l.price, remaining, 0)
      else
        let r := walkBook ls (remaining - level_value)
        (l.size + r.1, level_value + r.2.1, r.2.2)

/-- The prefix of levels the walk actually consumes (possibly with only a
partial take of the last one). -/
def consumedLevels : List OrderBookLevel → ℚ → List OrderBookLevel
  | [], _ => []
  | l :: ls, remaining =>
    if remaining ≤ 0 then []
    else if remaining ≤ l.price * l.size then [l]
    else l :: consumedLevels ls (remaining - l.price * l.size)

/-- `CachedOrderBook.get_execution_price(side, amount_usd)`: walk the cached
ladder of the relevant side; empty side or zero shares fall back to the
cached `mid` with 0 slippage and 0% fill.  Returns
`(execution_price, slippage_pct, fill_pct)`. -/
def CachedOrderBook.get_execution_price (b : CachedOrderBook) (side : Side)
    (amount_usd : ℚ) : ℚ × ℚ × ℚ :=
  let levels := if side = Side.BUY then b.asks else b.bids
  if levels = [] then (b.mid, 0, 0)
  else
    let w := walkBook levels amount_usd
    if w.1 = 0 then (b.mid, 0, 0)
    else
      let exec_price := w.2.1 / w.1
      let filled_amount := amount_usd - w.2.2
      let fill_pct := if 0 < amount_usd then filled_amount / amount_usd * 100 else 100
      let best_price := if side = Side.BUY then b.best_ask else b.best_bid
      let slippage_pct :=
        if 0 < best_price then |exec_price - best_price| / best_price * 100 else 0
      (exec_price, slippage_pct, fill_pct)

/-- `PolymarketClient.get_execution_price(token_id, side, amount_usd)` at
`copy_delay_ms = 0` (the default — the delay-impact branch is not entered),
starting from the fetched book's raw `bids`/`asks`.  The fetch itself is
I/O and outside the model; an absent book and an empty side both take the
same early return.  Returns `(execution_price, spread, slippage_pct,
fill_pct)`; the constant `delay_impact_pct = 0` and `delay_breakdown =
None` components are dropped. -/
def client_get_execution_price (bids asks : List OrderBookLevel) (side : Side)
    (amount_usd : ℚ) : ℚ × ℚ × ℚ × ℚ :=
  if bids = [] ∨ asks = [] then (1 / 2, 0, 0, 100)
  else
    let asks_sorted := sortLevels false asks
    let bids_sorted := sortLevels true bids
    let best_ask := (asks_sorted.headD default).price
    let best_bid := (bids_sorted.headD default).price
    let spread := best_ask - best_bid
    let levels := if side = Side.BUY then asks_sorted else bids_sorted
    let w := walkBook levels amount_usd
    let filled_amount := amount_usd - w.2.2
    let fill_pct := if 0 < amount_usd then filled_amount / amount_usd * 100 else 100
    if w.1 = 0 then ((best_ask + best_bid) / 2, spread, 0, 0)
    else
      let execution_price := w.2.1 / w.1
      let slippage_pct :=
        if side = Side.BUY then
          if 0 < best_ask then (execution_price - best_ask) / best_ask * 100 else 0
        else
          if 0 < best_bid then (best_bid - execution_price) / best_bid * 100 else 0
      (execution_price, spread, max 0 slippage_pct, fill_pct)

/-! ## Trades and settlement (`src/core/trader.py`) -/

/-- The fields of the `Trade` dataclass read or written by
`TradingState.settle_trade`.  The many analytics-only fields (copytrade
context, on-chain data, session counters, …) are omitted: `settle_trade`
never touches them.  `direction` and `settlement_status` are the Python
strings. -/
structure Trade where
  direction : String
  amount : ℚ
  entry_price : ℚ
  execution_price : ℚ := 0
  fee_pct : ℚ := 0
  outcome : Option String := none
  won : Bool := false
  settled_at : Option ℤ := none
  settlement_status : String := "pending"
  resolution_time : Option ℤ := none
  window_close_time : Option ℤ := none
  resolution_delay_seconds : Option ℤ := none
  final_price : Option ℚ := none
  price_at_close : Option ℚ := none
  shares_bought : ℚ := 0
  gross_payout : ℚ := 0
  gross_profit : ℚ := 0
  fee_amount : ℚ := 0
  net_profit : ℚ := 0
  pnl : ℚ := 0
deriving DecidableEq, Repr

/-- The two `Market` fields `settle_trade` reads for `price_at_close`. -/
structure Market where
  up_price : ℚ
  down_price : ℚ
deriving DecidableEq, Repr

/-- The `TradingState` fields touched by `settle_trade`. -/
structure TradingState where
  bankroll : ℚ
  daily_pnl : ℚ := 0
deriving DecidableEq, Repr

/-- `TradingState.settle_trade(trade, outcome, market)` at wall-clock time
`now` (seconds): writes the settlement fields of the trade and adds
`trade.pnl` to both `daily_pnl` and `bankroll`.  Returns the updated state
and trade.  Note there is no guard on `settlement_status` — the body runs
unconditionally. -/
def TradingState.settle_trade (st : TradingState) (trade : Trade) (outcome : String)
    (market : Option Market) (now : ℚ) : TradingState × Trade :=
  let won := trade.direction = outcome
  let resolution_time : ℤ := ⌊now⌋
  let trade :=
    { trade with
      outcome := some outcome
      won := won
      settled_at := some ⌊now * 1000⌋
      settlement_status := "settled"
      resolution_time := some resolution_time
      resolution_delay_seconds :=
        trade.window_close_time.map fun wct => resolution_time - wct
      final_price := some (if won then 1 else 0)
      price_at_close :=
        match market with
        | some m => some (if trade.direction = "up" then m.up_price else m.down_price)
        | none => trade.price_at_close }
  let exec_price := if 0 < trade.execution_price then trade.execution_price
    else trade.entry_price
  let trade :=
    { trade with
      shares_bought := if 0 < exec_price then trade.amount / exec_price else 0 }
  let trade :=
    if trade.won then
      let gross_payout := trade.shares_bought
      let gross_profit := gross_payout - trade.amount
      let fee_pct := if 0 < trade.fee_pct then trade.fee_pct else 0
      let fee_amount := if 0 < gross_profit then gross_profit * fee_pct else 0
      { trade with
        gross_payout := gross_payout
        gross_profit := gross_profit
        fee_amount := fee_amount
        net_profit := gross_profit - fee_amount
        pnl := gross_profit - fee_amount }
    else
      { trade with
        gross_payout := 0
        gross_profit := -trade.amount
        fee_amount := 0
        net_profit := -trade.amount
        pnl := -trade.amount }
  ({ st with
      daily_pnl := st.daily_pnl + trade.pnl
      bankroll := st.bankroll + trade.pnl },
    trade)

/-! ## Delay-impact model (`src/core/polymarket.py`)

`calculate_impact` calls `math.sqrt`, so this one component is modelled
over `ℝ` with `Real.sqrt`. -/

/-- The `DelayImpactModel` dataclass; defaults are the `Config` defaults
(`DELAY_MODEL_BASE_COEF = 0.8`, `DELAY_MODEL_MAX_IMPACT = 10.0`,
`DELAY_MODEL_BASELINE_SPREAD = 0.02`). -/
structure DelayImpactModel where
  base_coef : ℝ := 4 / 5
  max_impact : ℝ := 10
  baseline_spread : ℝ := 1 / 50
deriving Inhabited

/-- The liquidity factor of `DelayImpactModel.calculate_impact`:
`clamp(order_size / (depth_at_best * 0.5), 0.5, 2.0)`, defaulting to `1.0`
unless both depth and order size are positive. -/
noncomputable def liqFactorOf (order_size depth_at_best : ℝ) : ℝ :=
  if 0 < depth_at_best ∧ 0 < order_size then
    min 2 (max (1 / 2) (order_size / (depth_at_best * (1 / 2))))
  else 1

/-- The volatility factor: `clamp(spread / baseline_spread, 0.5, 2.0)`,
defaulting to `1.0` unless both spreads are positive. -/
noncomputable def volFactorOf (spread baseline_spread : ℝ) : ℝ :=
  if 0 < spread ∧ 0 < baseline_spread then
    min 2 (max (1 / 2) (spread / baseline_spread))
  else 1

/-- `DelayImpactModel.calculate_impact(delay_ms, order_size, depth_at_best,
spread)`: 0 for non-positive delay, otherwise
`min(max_impact, sqrt(delay_s) * base_coef * liq_factor * vol_factor)`.
The returned breakdown dict is log-only and omitted; `side` is unused by
the computation. -/
noncomputable def DelayImpactModel.calculate_impact (m : DelayImpactModel)
    (delay_ms : ℤ) (order_size depth_at_best spread : ℝ) : ℝ :=
  if delay_ms ≤ 0 then 0
  else
    let delay_seconds : ℝ := (delay_ms : ℝ) / 1000
    let base_impact := Real.sqrt delay_seconds * m.base_coef
    let liq_factor := liqFactorOf order_size depth_at_best
    let vol_factor := volFactorOf spread m.baseline_spread
    min m.max_impact (base_impact * liq_factor * vol_factor)

/-!
# Theorems
-/

/-! ## Settlement helper lemmas -/

/-- The settled trade's `pnl` and `net_profit` coincide (both branches of
`settle_trade` assign them the same value). -/
theorem settle_pnl_eq_net (st : TradingState) (t : Trade) (o : String)
    (m : Option Market) (now : ℚ) :
    (st.settle_trade t o m now).2.pnl = (st.settle_trade t o m now).2.net_profit := by
  simp only [TradingState.settle_trade]
  split <;> rfl

/-- `settle_trade` adds exactly `trade.pnl` to the bankroll. -/
theorem settle_bankroll (st : TradingState) (t : Trade) (o : String)
    (m : Option Market) (now : ℚ) :
    (st.settle_trade t o m now).1.bankroll =
      st.bankroll + (st.settle_trade t o m now).2.pnl := rfl

/-- `settle_trade` adds exactly `trade.pnl` to `daily_pnl`. -/
theorem settle_daily (st : TradingState) (t : Trade) (o : String)
    (m : Option Market) (now : ℚ) :
    (st.settle_trade t o m now).1.daily_pnl =
      st.daily_pnl + (st.settle_trade t o m now).2.pnl := rfl

/-- `settle_trade` marks the trade `settled`. -/
theorem settle_status (st : TradingState) (t : Trade) (o : String)
    (m : Option Market) (now : ℚ) :
    (st.settle_trade t o m now).2.settlement_status = "settled" := by
  simp only [TradingState.settle_trade]
  split <;> rfl

/-- `settle_trade` leaves the P&L-determining input fields of the trade
unchanged. -/
theorem settle_fields (st : TradingState) (t : Trade) (o : String)
    (m : Option Market) (now : ℚ) :
    (st.settle_trade t o m now).2.direction = t.direction ∧
    (st.settle_trade t o m now).2.amount = t.amount ∧
    (st.settle_trade t o m now).2.entry_price = t.entry_price ∧
    (st.settle_trade t o m now).2.execution_price = t.execution_price ∧
    (st.settle_trade t o m now).2.fee_pct = t.fee_pct := by
  simp only [TradingState.settle_trade]
  refine ⟨?_, ?_, ?_, ?_, ?_⟩ <;> (split <;> rfl)

/-- The computed `net_profit` depends only on the trade's direction,
amount, prices and fee rate — not on the ledger state, the market, the
clock, or the trade's settlement bookkeeping fields. -/
theorem settle_net_congr (st st2 : TradingState) (t t2 : Trade) (o : String)
    (m m2 : Option Market) (now now2 : ℚ)
    (hd : t2.direction = t.direction) (ha : t2.amount = t.amount)
    (he : t2.entry_price = t.entry_price)
    (hx : t2.execution_price = t.execution_price) (hf : t2.fee_pct = t.fee_pct) :
    (st2.settle_trade t2 o m2 now2).2.net_profit =
      (st.settle_trade t o m now).2.net_profit := by
  simp only [TradingState.settle_trade, hd, ha, he, hx, hf]
  split <;> rfl

/-! ## C1 — settlement idempotence -/

/-- C1, counterexample: `settle_trade` has no status guard.  A $10 winning
trade at execution price 0.5 is settled twice from bankroll 100: the first
call marks it `settled` and moves bankroll to 110, yet the second call on
the already-settled trade moves bankroll again, to 120, adding the $10 net
profit a second time to both `bankroll` and `daily_pnl`. -/
theorem C1_settle_twice_double_counts :
    (TradingState.settle_trade { bankroll := 100, daily_pnl := 0 }
        { direction := "up", amount := 10, entry_price := 1 / 2,
          execution_price := 1 / 2 } "up" none 0).2.settlement_status = "settled" ∧
    (TradingState.settle_trade { bankroll := 100, daily_pnl := 0 }
        { direction := "up", amount := 10, entry_price := 1 / 2,
          execution_price := 1 / 2 } "up" none 0).1.bankroll = 110 ∧
    ((TradingState.settle_trade { bankroll := 100, daily_pnl := 0 }
          { direction := "up", amount := 10, entry_price := 1 / 2,
            execution_price := 1 / 2 } "up" none 0).1.settle_trade
        (TradingState.settle_trade { bankroll := 100, daily_pnl := 0 }
            { direction := "up", amount := 10, entry_price := 1 / 2,
              execution_price := 1 / 2 } "up" none 0).2
        "up" none 0).1.bankroll = 120 ∧
    ((TradingState.settle_trade { bankroll := 100, daily_pnl := 0 }
          { direction := "up", amount := 10, entry_price := 1 / 2,
            execution_price := 1 / 2 } "up" none 0).1.settle_trade
        (TradingState.settle_trade { bankroll := 100, daily_pnl := 0 }
            { direction := "up", amount := 10, entry_price := 1 / 2,
              execution_price := 1 / 2 } "up" none 0).2
        "up" none 0).1.daily_pnl = 20 := by
  norm_num [TradingState.settle_trade]

/-- C1 (amended): `settle_trade` performs no settlement-status guard; every
call — including one on an already-settled trade — adds the trade's
`net_profit` to both `bankroll` and `daily_pnl`.  A single call adds it
exactly once and marks the trade `settled`; a second call with the same
outcome recomputes the same `net_profit` and adds it again, so idempotence
is the callers' responsibility (they drop each trade from their pending
list after settling it). -/
theorem C1_settle_trade_adds_net_profit_each_call (st : TradingState) (t : Trade)
    (o : String) (m : Option Market) (now : ℚ) :
    (st.settle_trade t o m now).1.bankroll =
      st.bankroll + (st.settle_trade t o m now).2.net_profit ∧
    (st.settle_trade t o m now).1.daily_pnl =
      st.daily_pnl + (st.settle_trade t o m now).2.net_profit ∧
    (st.settle_trade t o m now).2.settlement_status = "settled" ∧
    ((st.settle_trade t o m now).1.settle_trade (st.settle_trade t o m now).2
        o m now).2.net_profit = (st.settle_trade t o m now).2.net_profit ∧
    ((st.settle_trade t o m now).1.settle_trade (st.settle_trade t o m now).2
        o m now).1.bankroll =
      st.bankroll + 2 * (st.settle_trade t o m now).2.net_profit := by
  obtain ⟨hd, ha, he, hx, hf⟩ := settle_fields st t o m now
  have hnet2 := settle_net_congr st (st.settle_trade t o m now).1 t
    (st.settle_trade t o m now).2 o m m now now hd ha he hx hf
  refine ⟨?_, ?_, settle_status st t o m now, hnet2, ?_⟩
  · rw [settle_bankroll, settle_pnl_eq_net]
  · rw [settle_daily, settle_pnl_eq_net]
  · rw [settle_bankroll, settle_pnl_eq_net, hnet2, settle_bankroll,
      settle_pnl_eq_net]
    ring

/-! ## C5 — settlement P&L arithmetic -/

/-- C5: for a trade with a positive execution price and non-negative fee
rate, settlement computes `shares_bought = amount / execution_price`; on a
win (`direction = outcome`) `gross_payout = shares_bought` (binary
contracts pay 1.0 per share), `gross_profit = gross_payout - amount`,
`fee_amount = gross_profit * fee_pct` only when `gross_profit` is positive
(never on losses or principal), and
`net_profit = gross_profit - fee_amount`; on a loss `net_profit = -amount`
with zero fee. -/
theorem C5_settlement_math (st : TradingState) (t : Trade) (o : String)
    (m : Option Market) (now : ℚ) (hx : 0 < t.execution_price)
    (hf : 0 ≤ t.fee_pct) :
    (st.settle_trade t o m now).2.shares_bought = t.amount / t.execution_price ∧
    (t.direction = o →
      (st.settle_trade t o m now).2.gross_payout =
        (st.settle_trade t o m now).2.shares_bought ∧
      (st.settle_trade t o m now).2.gross_profit =
        (st.settle_trade t o m now).2.gross_payout - t.amount ∧
      (st.settle_trade t o m now).2.fee_amount =
        (if 0 < (st.settle_trade t o m now).2.gross_profit then
          (st.settle_trade t o m now).2.gross_profit * t.fee_pct else 0) ∧
      (st.settle_trade t o m now).2.net_profit =
        (st.settle_trade t o m now).2.gross_profit -
          (st.settle_trade t o m now).2.fee_amount) ∧
    (t.direction ≠ o →
      (st.settle_trade t o m now).2.net_profit = -t.amount ∧
      (st.settle_trade t o m now).2.fee_amount = 0) := by
  simp only [TradingState.settle_trade, hx, if_pos]
  constructor
  · split <;> rfl
  constructor
  · intro hdo
    simp only [hdo, decide_True, if_pos]
    rcases lt_or_eq_of_le hf with hf1 | hf1
    · simp [hf1]
    · simp [← hf1]
  · intro hdo
    simp [hdo]

/-- C5, witness: the theorem applied to a concrete $10 winning trade at
execution price 0.5 with a 10% fee rate. -/
theorem C5_settlement_math_witness :
    (0 : ℚ) <
      ({ direction := "up", amount := 10, entry_price := 1 / 2,
         execution_price := 1 / 2, fee_pct := 1 / 10 } : Trade).execution_price ∧
    (TradingState.settle_trade { bankroll := 100, daily_pnl := 0 }
        { direction := "up", amount := 10, entry_price := 1 / 2,
          execution_price := 1 / 2, fee_pct := 1 / 10 } "up" none 0).2.shares_bought =
      ({ direction := "up", amount := 10, entry_price := 1 / 2,
         execution_price := 1 / 2, fee_pct := 1 / 10 } : Trade).amount /
        ({ direction := "up", amount := 10, entry_price := 1 / 2,
           execution_price := 1 / 2, fee_pct := 1 / 10 } : Trade).execution_price ∧
    (TradingState.settle_trade { bankroll := 100, daily_pnl := 0 }
        { direction := "up", amount := 10, entry_price := 1 / 2,
          execution_price := 1 / 2, fee_pct := 1 / 10 } "up" none 0).2.shares_bought =
      20 ∧
    (TradingState.settle_trade { bankroll := 100, daily_pnl := 0 }
        { direction := "up", amount := 10, entry_price := 1 / 2,
          execution_price := 1 / 2, fee_pct := 1 / 10 } "up" none 0).2.net_profit =
      9 := by
  have h := C5_settlement_math { bankroll := 100, daily_pnl := 0 }
    { direction := "up", amount := 10, entry_price := 1 / 2,
      execution_price := 1 / 2, fee_pct := 1 / 10 } "up" none 0
    (by norm_num) (by norm_num)
  refine ⟨by norm_num, h.1, ?_, ?_⟩ <;> norm_num [TradingState.settle_trade]

/-! ## C2 — empty book side -/

/-- C2, counterexample: the claim fails on the REST fallback path.  With
empty `bids`, a non-empty ask ladder and a $5 buy,
`PolymarketClient.get_execution_price` returns price `0.5`, 0 slippage and
a `fill_pct` of `100` — not the 0% fill the claim states for an empty
relevant side. -/
theorem C2_rest_empty_side_returns_full_fill :
    client_get_execution_price [] [⟨2 / 5, 10⟩] Side.BUY 5 = (1 / 2, 0, 0, 100) ∧
    (client_get_execution_price [] [⟨2 / 5, 10⟩] Side.BUY 5).2.2.2 ≠ 0 := by
  constructor
  · rfl
  · norm_num [client_get_execution_price]

/-- C2 (amended): on the cached path an empty relevant side returns the
cached midpoint with 0 slippage and 0% fill; on the REST fallback an empty
side (either one) instead returns the constant price `0.5` with 0 spread,
0 slippage and a reported `100`% fill.  Neither path throws (both are
total functions). -/
theorem C2_empty_book_side (b : CachedOrderBook) (side : Side) (amount : ℚ)
    (bids asks : List OrderBookLevel)
    (hb : (if side = Side.BUY then b.asks else b.bids) = [])
    (hr : bids = [] ∨ asks = []) :
    b.get_execution_price side amount = (b.mid, 0, 0) ∧
    client_get_execution_price bids asks side amount = (1 / 2, 0, 0, 100) := by
  constructor
  · simp only [CachedOrderBook.get_execution_price, hb, if_pos]
  · simp only [client_get_execution_price, hr, if_pos]

/-- C2, witness: the amended theorem applied to a book whose ask ladder is
empty (cached path) and to an empty REST bid ladder. -/
theorem C2_empty_book_side_witness :
    ((if Side.BUY = Side.BUY then (initBook : CachedOrderBook).asks
        else initBook.bids) = []) ∧
    (([] : List OrderBookLevel) = [] ∨ [(⟨2 / 5, 10⟩ : OrderBookLevel)] = []) ∧
    initBook.get_execution_price Side.BUY 5 = (initBook.mid, 0, 0) ∧
    client_get_execution_price [] [⟨2 / 5, 10⟩] Side.BUY 5 = (1 / 2, 0, 0, 100) := by
  refine ⟨by decide, Or.inl rfl, ?_⟩
  exact C2_empty_book_side initBook Side.BUY 5 [] [⟨2 / 5, 10⟩] (by decide)
    (Or.inl rfl)

/-! ## C10 — error classification totality -/

/-- C10: `categorize_error` is total — *every* exception yields one of the
four `ErrorCategory` values; the result depends only on whether the
exception is a `CircuitOpenError` and on its lowercased string
representation — any two exceptions agreeing on those two observations
classify identically, heuristic-matching or not; and an exception that is
not a `CircuitOpenError` and matches none of the message heuristics falls
through to `RETRYABLE`. -/
theorem C10_categorize_error_total (e e2 : PyError)
    (hlow : strToLower e.msg = strToLower e2.msg)
    (hcirc : e.isCircuitOpenErr = e2.isCircuitOpenErr) :
    (∀ err : PyError, categorize_error err = ErrorCategory.RETRYABLE ∨
      categorize_error err = ErrorCategory.FATAL ∨
      categorize_error err = ErrorCategory.RATE_LIMITED ∨
      categorize_error err = ErrorCategory.CIRCUIT_OPEN) ∧
    categorize_error e = categorize_error e2 ∧
    (e.isCircuitOpenErr = false →
      (∀ pat ∈ ["429", "rate limit", "too many requests", "500", "502", "503",
        "504", "timeout", "timed out", "connection", "400", "401", "403", "404",
        "422", "invalid", "validation", "insufficient", "balance"],
        strContains (strToLower e.msg) pat = false) →
      categorize_error e = ErrorCategory.RETRYABLE) := by
  have htot : ∀ err : PyError, categorize_error err = ErrorCategory.RETRYABLE ∨
      categorize_error err = ErrorCategory.FATAL ∨
      categorize_error err = ErrorCategory.RATE_LIMITED ∨
      categorize_error err = ErrorCategory.CIRCUIT_OPEN := by
    intro err
    simp only [categorize_error]
    split
    · exact Or.inr (Or.inr (Or.inr rfl))
    · split
      · exact Or.inr (Or.inr (Or.inl rfl))
      · split
        · exact Or.inl rfl
        · split
          · exact Or.inl rfl
          · split
            · exact Or.inl rfl
            · split
              · exact Or.inr (Or.inl rfl)
              · split
                · exact Or.inr (Or.inl rfl)
                · split
                  · exact Or.inr (Or.inl rfl)
                  · exact Or.inl rfl
  have hdet : categorize_error e = categorize_error e2 := by
    simp only [categorize_error]
    rw [hlow, hcirc]
  refine ⟨htot, hdet, ?_⟩
  intro hnotCirc hnone
  have h429 := hnone "429" (by simp)
  have hrl := hnone "rate limit" (by simp)
  have htmr := hnone "too many requests" (by simp)
  have h500 := hnone "500" (by simp)
  have h502 := hnone "502" (by simp)
  have h503 := hnone "503" (by simp)
  have h504 := hnone "504" (by simp)
  have hto := hnone "timeout" (by simp)
  have htdo := hnone "timed out" (by simp)
  have hconn := hnone "connection" (by simp)
  have h400 := hnone "400" (by simp)
  have h401 := hnone "401" (by simp)
  have h403 := hnone "403" (by simp)
  have h404 := hnone "404" (by simp)
  have h422 := hnone "422" (by simp)
  have hinv := hnone "invalid" (by simp)
  have hval := hnone "validation" (by simp)
  have hins := hnone "insufficient" (by simp)
  have hbal := hnone "balance" (by simp)
  simp only [categorize_error]
  rw [hnotCirc]
  simp [h429, hrl, htmr, h500, h502, h503, h504, hto, htdo, hconn, h400, h401,
    h403, h404, h422, hinv, hval, hins, hbal]

/-- C10, witness: the theorem applied to the heuristic-*matching* pair
`"Connection RESET by peer"` / `"connection reset by peer"` (same
lowercase form, both Retryable and provably equal by the determinism
conjunct), with the totality conjunct read off at the first of them, and —
through a second application — the default conjunct at the no-match
message `"Boom"`. -/
theorem C10_categorize_error_total_witness :
    strToLower (PyError.mk false "Connection RESET by peer").msg =
      strToLower (PyError.mk false "connection reset by peer").msg ∧
    (PyError.mk false "Connection RESET by peer").isCircuitOpenErr =
      (PyError.mk false "connection reset by peer").isCircuitOpenErr ∧
    (categorize_error (PyError.mk false "Connection RESET by peer") =
        ErrorCategory.RETRYABLE ∨
      categorize_error (PyError.mk false "Connection RESET by peer") =
        ErrorCategory.FATAL ∨
      categorize_error (PyError.mk false "Connection RESET by peer") =
        ErrorCategory.RATE_LIMITED ∨
      categorize_error (PyError.mk false "Connection RESET by peer") =
        ErrorCategory.CIRCUIT_OPEN) ∧
    categorize_error (PyError.mk false "Connection RESET by peer") =
      categorize_error (PyError.mk false "connection reset by peer") ∧
    categorize_error (PyError.mk false "Boom") = ErrorCategory.RETRYABLE := by
  have h := C10_categorize_error_total (PyError.mk false "Connection RESET by peer")
    (PyError.mk false "connection reset by peer") (by decide) (by decide)
  have hboom := C10_categorize_error_total (PyError.mk false "Boom")
    (PyError.mk false "Boom") rfl rfl
  refine ⟨by decide, by decide, h.1 (PyError.mk false "Connection RESET by peer"),
    h.2.1, hboom.2.2 (by decide) ?_⟩
  intro pat hp
  fin_cases hp <;> decide

/-! ## C3 — circuit-breaker opening and recovery -/

/-- C3, counterexample: with the default threshold 5, the failure counter
is only *decremented* by a success in CLOSED (`max(0, failures - 1)`), not
reset, so the event sequence fail, fail, fail, fail, success, fail, fail —
whose longest run of consecutive failures is 4 — still drives the counter
to 5, opens the circuit, and makes `allow_request` return false even
though `failure_threshold` consecutive failures never occurred. -/
theorem C3_opens_without_consecutive_failures :
    maxConsecFailures
        [CBEvent.recFailure 0, CBEvent.recFailure 0, CBEvent.recFailure 0,
          CBEvent.recFailure 0, CBEvent.recSuccess, CBEvent.recFailure 0,
          CBEvent.recFailure 0] = 4 ∧
    initCB.failure_threshold = 5 ∧
    (cbRun initCB
        [CBEvent.recFailure 0, CBEvent.recFailure 0, CBEvent.recFailure 0,
          CBEvent.recFailure 0, CBEvent.recSuccess, CBEvent.recFailure 0,
          CBEvent.recFailure 0]).state = CircuitState.OPEN ∧
    ((cbRun initCB
        [CBEvent.recFailure 0, CBEvent.recFailure 0, CBEvent.recFailure 0,
          CBEvent.recFailure 0, CBEvent.recSuccess, CBEvent.recFailure 0,
          CBEvent.recFailure 0]).allow_request 0).1 = false := by
  norm_num [maxConsecFailures, cbRun, cbStep, initCB, CircuitBreaker.record_failure,
    CircuitBreaker.record_success, CircuitBreaker.allow_request,
    CircuitBreaker.readState, CircuitBreaker.transition_to]

/-- C3 (amended): `allow_request` always returns true while CLOSED; from
CLOSED, `record_failure` opens the circuit exactly when it raises the
internal failure counter — incremented per failure and *decremented by
one* (floored at 0) per success while CLOSED, not a consecutive-failure
count — to `failure_threshold`; once OPEN, a state read at least
`recovery_time` after the last failure transitions to HALF_OPEN and the
next `allow_request` returns true; and any single `record_failure` while
HALF_OPEN returns the breaker to OPEN. -/
theorem C3_breaker_transitions (cb1 cb2 cb3 cb4 : CircuitBreaker) (t1 t2 t3 t4 : ℚ)
    (h1 : cb1.state = CircuitState.CLOSED)
    (h2 : cb2.state = CircuitState.CLOSED)
    (h3 : cb3.state = CircuitState.OPEN)
    (h3t : cb3.recovery_time ≤ t3 - cb3.last_failure_time)
    (h3m : 0 < cb3.half_open_max_calls)
    (h4 : cb4.state = CircuitState.HALF_OPEN) :
    (cb1.allow_request t1).1 = true ∧
    ((cb2.record_failure t2).state = CircuitState.OPEN ↔
      cb2.failure_threshold ≤ cb2.failures + 1) ∧
    (cb2.failures + 1 < cb2.failure_threshold →
      (cb2.record_failure t2).state = CircuitState.CLOSED) ∧
    (cb3.readState t3).state = CircuitState.HALF_OPEN ∧
    (cb3.allow_request t3).1 = true ∧
    (cb4.record_failure t4).state = CircuitState.OPEN := by
  refine ⟨?_, ?_, ?_, ?_, ?_, ?_⟩
  · simp [CircuitBreaker.allow_request, CircuitBreaker.readState, h1]
  · simp only [CircuitBreaker.record_failure, h2]
    constructor
    · intro hopen
      by_contra hlt
      simp [CircuitBreaker.transition_to, not_le.mp hlt |>.not_le, hlt] at hopen
    · intro hle
      simp [CircuitBreaker.transition_to, hle]
  · intro hlt
    simp [CircuitBreaker.record_failure, h2, CircuitBreaker.transition_to,
      Nat.not_le.mpr hlt]
  · simp [CircuitBreaker.readState, h3, h3t, CircuitBreaker.transition_to]
  · simp [CircuitBreaker.allow_request, CircuitBreaker.readState, h3, h3t,
      CircuitBreaker.transition_to, h3m]
  · simp [CircuitBreaker.record_failure, h4, CircuitBreaker.transition_to]

/-- C3, witness: the amended theorem applied to a fresh breaker (CLOSED),
an OPEN breaker read 60 s after its last failure, and a HALF_OPEN
breaker. -/
theorem C3_breaker_transitions_witness :
    initCB.state = CircuitState.CLOSED ∧
    ({ initCB with state := CircuitState.OPEN,
                    last_failure_time := 0 } : CircuitBreaker).state = CircuitState.OPEN ∧
    ({ initCB with state := CircuitState.OPEN,
                    last_failure_time := 0 } : CircuitBreaker).recovery_time ≤ 60 - 0 ∧
    ({ initCB with state := CircuitState.HALF_OPEN } : CircuitBreaker).state =
      CircuitState.HALF_OPEN ∧
    (initCB.allow_request 0).1 = true ∧
    ((initCB.record_failure 0).state = CircuitState.OPEN ↔
      initCB.failure_threshold ≤ initCB.failures + 1) ∧
    (({ initCB with state := CircuitState.OPEN,
                     last_failure_time := 0 } : CircuitBreaker).readState 60).state =
      CircuitState.HALF_OPEN ∧
    (({ initCB with state := CircuitState.OPEN,
                     last_failure_time := 0 } : CircuitBreaker).allow_request 60).1 = true ∧
    (({ initCB with state := CircuitState.HALF_OPEN } : CircuitBreaker).record_failure
        0).state = CircuitState.OPEN := by
  have h := C3_breaker_transitions initCB initCB
    { initCB with state := CircuitState.OPEN, last_failure_time := 0 }
    { initCB with state := CircuitState.HALF_OPEN } 0 0 60 0
    (by decide) (by decide) (by decide) (by norm_num [initCB]) (by decide)
    (by decide)
  exact ⟨by decide, by decide, by norm_num [initCB], by decide, h.1, h.2.1,
    h.2.2.2.1, h.2.2.2.2.1, h.2.2.2.2.2⟩

/-! ## C4 — half-open close-out -/

/-- C4, counterexample: `_successes` is a running counter that is only
reset when the breaker transitions to CLOSED, so successes recorded
*before* entering HALF_OPEN count.  After 3 successes while CLOSED, 5
failures (opening the circuit) and the lazy OPEN → HALF_OPEN recovery, a
*single* `record_success` in HALF_OPEN — fewer than
`half_open_max_calls = 3` — already closes the circuit. -/
theorem C4_single_half_open_success_closes :
    initCB.half_open_max_calls = 3 ∧
    (cbRun initCB
        [CBEvent.recSuccess, CBEvent.recSuccess, CBEvent.recSuccess,
          CBEvent.recFailure 0, CBEvent.recFailure 0, CBEvent.recFailure 0,
          CBEvent.recFailure 0, CBEvent.recFailure 0]).state = CircuitState.OPEN ∧
    ((cbRun initCB
        [CBEvent.recSuccess, CBEvent.recSuccess, CBEvent.recSuccess,
          CBEvent.recFailure 0, CBEvent.recFailure 0, CBEvent.recFailure 0,
          CBEvent.recFailure 0, CBEvent.recFailure 0]).readState 60).state =
      CircuitState.HALF_OPEN ∧
    (((cbRun initCB
        [CBEvent.recSuccess, CBEvent.recSuccess, CBEvent.recSuccess,
          CBEvent.recFailure 0, CBEvent.recFailure 0, CBEvent.recFailure 0,
          CBEvent.recFailure 0, CBEvent.recFailure 0]).readState 60).record_success).state =
      CircuitState.CLOSED := by
  norm_num [cbRun, cbStep, initCB, CircuitBreaker.record_failure,
    CircuitBreaker.record_success, CircuitBreaker.allow_request,
    CircuitBreaker.readState, CircuitBreaker.transition_to]

/-- C4 (amended): while HALF_OPEN, `record_success` closes the circuit
exactly when it raises `_successes` — the total number of successes
recorded since the breaker last entered CLOSED, *including* successes
recorded before entering HALF_OPEN — to at least `half_open_max_calls`;
with strictly fewer accumulated successes the breaker stays HALF_OPEN. -/
theorem C4_half_open_close_threshold (cb : CircuitBreaker)
    (h : cb.state = CircuitState.HALF_OPEN) :
    (cb.record_success.state = CircuitState.CLOSED ↔
      cb.half_open_max_calls ≤ cb.successes + 1) ∧
    (cb.successes + 1 < cb.half_open_max_calls →
      cb.record_success.state = CircuitState.HALF_OPEN) := by
  constructor
  · simp only [CircuitBreaker.record_success, h]
    constructor
    · intro hclosed
      by_contra hlt
      simp [CircuitBreaker.transition_to, Nat.not_le.mp hlt |>.not_le] at hclosed
    · intro hle
      simp [CircuitBreaker.transition_to, hle]
  · intro hlt
    simp [CircuitBreaker.record_success, h, CircuitBreaker.transition_to,
      Nat.not_le.mpr hlt]

/-- C4, witness: a HALF_OPEN breaker carrying 2 accumulated successes is
closed by a single further success (2 + 1 ≥ 3), and one carrying 0 stays
HALF_OPEN. -/
theorem C4_half_open_close_threshold_witness :
    ({ initCB with state := CircuitState.HALF_OPEN,
                    successes := 2 } : CircuitBreaker).state = CircuitState.HALF_OPEN ∧
    ({ initCB with state := CircuitState.HALF_OPEN,
                    successes := 2 } : CircuitBreaker).record_success.state =
      CircuitState.CLOSED ∧
    ({ initCB with state := CircuitState.HALF_OPEN } : CircuitBreaker).record_success.state =
      CircuitState.HALF_OPEN := by
  have h2 := C4_half_open_close_threshold
    { initCB with state := CircuitState.HALF_OPEN, successes := 2 } (by decide)
  have h0 := C4_half_open_close_threshold
    { initCB with state := CircuitState.HALF_OPEN } (by decide)
  exact ⟨by decide, h2.1.mpr (by decide), h0.2 (by decide)⟩

/-! ## Book-walk helper lemmas -/

/-- With non-negative prices and sizes, the walk never drives `remaining`
negative and never increases it. -/
theorem walk_remaining_bounds (levels : List OrderBookLevel) (r : ℚ) (hr : 0 ≤ r)
    (hlv : ∀ x ∈ levels, 0 ≤ x.price ∧ 0 ≤ x.size) :
    0 ≤ (walkBook levels r).2.2 ∧ (walkBook levels r).2.2 ≤ r := by
  induction levels generalizing r with
  | nil => exact ⟨hr, le_refl r⟩
  | cons l ls ih =>
    have hlev : 0 ≤ l.price * l.size :=
      mul_nonneg (hlv l (List.mem_cons_self l ls)).1 (hlv l (List.mem_cons_self l ls)).2
    by_cases h0 : r ≤ 0
    · simp only [walkBook, h0, if_pos]
      exact ⟨hr, le_refl r⟩
    · by_cases h1 : r ≤ l.price * l.size
      · simp only [walkBook, h0, if_neg, if_pos, h1]
        simp [hr]
      · have hpos : 0 ≤ r - l.price * l.size := by
          have := not_le.mp h1
          linarith
        have := ih (r - l.price * l.size) hpos
          fun x hx => hlv x (List.mem_cons_of_mem l hx)
        simp only [walkBook, h0, h1, if_neg, if_false]
        refine ⟨this.1, le_trans this.2 ?_⟩
        linarith

/-- With non-negative prices and sizes, the accumulated share count is
non-negative. -/
theorem walk_shares_nonneg (levels : List OrderBookLevel) (r : ℚ)
    (h : ∀ x ∈ levels, 0 ≤ x.price ∧ 0 ≤ x.size) :
    0 ≤ (walkBook levels r).1 := by
  induction levels generalizing r with
  | nil => simp [walkBook]
  | cons l ls ih =>
    by_cases h0 : r ≤ 0
    · simp [walkBook, h0]
    · by_cases h1 : r ≤ l.price * l.size
      · simp only [walkBook, h0, h1, if_neg, if_pos, if_false]
        exact div_nonneg (le_of_not_le h0) (h l (List.mem_cons_self l ls)).1
      · simp only [walkBook, h0, h1, if_neg, if_false]
        have hs := ih (r - l.price * l.size) fun x hx => h x (List.mem_cons_of_mem l hx)
        have := (h l (List.mem_cons_self l ls)).2
        linarith

/-- With positive prices and sizes and a positive requested notional, a
non-empty ladder yields a positive share count. -/
theorem walk_shares_pos (l : OrderBookLevel) (ls : List OrderBookLevel) (r : ℚ)
    (hr : 0 < r) (h : ∀ x ∈ l :: ls, 0 < x.price ∧ 0 < x.size) :
    0 < (walkBook (l :: ls) r).1 := by
  have h0 : ¬ r ≤ 0 := not_le.mpr hr
  by_cases h1 : r ≤ l.price * l.size
  · simp only [walkBook, h0, h1, if_neg, if_pos, if_false]
    exact div_pos hr (h l (List.mem_cons_self l ls)).1
  · simp only [walkBook, h0, h1, if_neg, if_false]
    have hs := walk_shares_nonneg ls (r - l.price * l.size)
      fun x hx => ⟨le_of_lt (h x (List.mem_cons_of_mem l hx)).1,
        le_of_lt (h x (List.mem_cons_of_mem l hx)).2⟩
    have := (h l (List.mem_cons_self l ls)).2
    linarith

/-- Any price interval `[lo, hi]` containing every consumed level price
also bounds `total_cost` between `lo * total_shares` and
`hi * total_shares`. -/
theorem walk_cost_bounds (levels : List OrderBookLevel) (r lo hi : ℚ) (hr : 0 < r)
    (hlv : ∀ x ∈ levels, 0 < x.price ∧ 0 ≤ x.size)
    (hc : ∀ x ∈ consumedLevels levels r, lo ≤ x.price ∧ x.price ≤ hi) :
    lo * (walkBook levels r).1 ≤ (walkBook levels r).2.1 ∧
    (walkBook levels r).2.1 ≤ hi * (walkBook levels r).1 := by
  induction levels generalizing r with
  | nil => simp [walkBook]
  | cons l ls ih =>
    have h0 : ¬ r ≤ 0 := not_le.mpr hr
    have hp : 0 < l.price := (hlv l (List.mem_cons_self l ls)).1
    have hsz : 0 ≤ l.size := (hlv l (List.mem_cons_self l ls)).2
    by_cases h1 : r ≤ l.price * l.size
    · have hcl : lo ≤ l.price ∧ l.price ≤ hi := by
        apply hc
        simp [consumedLevels, h0, h1]
      simp only [walkBook, h0, h1, if_neg, if_pos, if_false]
      have hq : 0 ≤ r / l.price := div_nonneg (le_of_lt hr) (le_of_lt hp)
      have hr1 : l.price * (r / l.price) = r := mul_div_cancel₀ r (ne_of_gt hp)
      constructor
      · calc lo * (r / l.price) ≤ l.price * (r / l.price) :=
              mul_le_mul_of_nonneg_right hcl.1 hq
          _ = r := hr1
      · calc r = l.price * (r / l.price) := hr1.symm
          _ ≤ hi * (r / l.price) := mul_le_mul_of_nonneg_right hcl.2 hq
    · have hcl : lo ≤ l.price ∧ l.price ≤ hi := by
        apply hc
        simp [consumedLevels, h0, h1]
      have hrest : 0 < r - l.price * l.size := by
        have := not_le.mp h1
        linarith
      have hcons : ∀ x ∈ consumedLevels ls (r - l.price * l.size),
          lo ≤ x.price ∧ x.price ≤ hi := by
        intro x hx
        apply hc
        simp only [consumedLevels, h0, h1, if_neg, if_false]
        exact List.mem_cons_of_mem l hx
      have hIH := ih (r - l.price * l.size) hrest
        (fun x hx => hlv x (List.mem_cons_of_mem l hx)) hcons
      have hS := walk_shares_nonneg ls (r - l.price * l.size)
        fun x hx => ⟨le_of_lt (hlv x (List.mem_cons_of_mem l hx)).1,
          (hlv x (List.mem_cons_of_mem l hx)).2⟩
      simp only [walkBook, h0, h1, if_neg, if_false]
      have hlev1 : lo * l.size ≤ l.price * l.size :=
        mul_le_mul_of_nonneg_right hcl.1 hsz
      have hlev2 : l.price * l.size ≤ hi * l.size :=
        mul_le_mul_of_nonneg_right hcl.2 hsz
      constructor
      · have := hIH.1
        calc lo * (l.size + (walkBook ls (r - l.price * l.size)).1)
            = lo * l.size + lo * (walkBook ls (r - l.price * l.size)).1 := by ring
          _ ≤ l.price * l.size + (walkBook ls (r - l.price * l.size)).2.1 := by
              linarith
      · have := hIH.2
        calc l.price * l.size + (walkBook ls (r - l.price * l.size)).2.1
            ≤ hi * l.size + hi * (walkBook ls (r - l.price * l.size)).1 := by
              linarith
          _ = hi * (l.size + (walkBook ls (r - l.price * l.size)).1) := by ring

/-! ## C8 — delay-impact model -/

/-- C8: for fixed order size, depth-at-best and spread, the delay impact is
monotonically non-decreasing in `delay_ms` and never exceeds `max_impact`
(given a non-negative base coefficient and cap, as the defaults are); the
liquidity and volatility factors are each clamped into `[0.5, 2.0]` and
default to `1.0` when depth (resp. spread) is unknown, i.e. zero. -/
theorem C8_delay_impact_monotone_capped (m : DelayImpactModel) (d1 d2 : ℤ)
    (order_size depth_at_best spread : ℝ) (hc : 0 ≤ m.base_coef)
    (hcap : 0 ≤ m.max_impact) (hd : d1 ≤ d2) :
    m.calculate_impact d1 order_size depth_at_best spread ≤
      m.calculate_impact d2 order_size depth_at_best spread ∧
    (∀ d : ℤ, m.calculate_impact d order_size depth_at_best spread ≤ m.max_impact) ∧
    liqFactorOf order_size depth_at_best ∈ Set.Icc (1 / 2 : ℝ) 2 ∧
    volFactorOf spread m.baseline_spread ∈ Set.Icc (1 / 2 : ℝ) 2 ∧
    (depth_at_best = 0 → liqFactorOf order_size depth_at_best = 1) ∧
    (spread = 0 → volFactorOf spread m.baseline_spread = 1) := by
  have hliq : liqFactorOf order_size depth_at_best ∈ Set.Icc (1 / 2 : ℝ) 2 := by
    unfold liqFactorOf
    split
    · exact Set.mem_Icc.mpr ⟨le_min (by norm_num) (le_max_left _ _), min_le_left _ _⟩
    · exact Set.mem_Icc.mpr ⟨by norm_num, by norm_num⟩
  have hvol : volFactorOf spread m.baseline_spread ∈ Set.Icc (1 / 2 : ℝ) 2 := by
    unfold volFactorOf
    split
    · exact Set.mem_Icc.mpr ⟨le_min (by norm_num) (le_max_left _ _), min_le_left _ _⟩
    · exact Set.mem_Icc.mpr ⟨by norm_num, by norm_num⟩
  have hliq0 : (0 : ℝ) ≤ liqFactorOf order_size depth_at_best :=
    le_trans (by norm_num) (Set.mem_Icc.mp hliq).1
  have hvol0 : (0 : ℝ) ≤ volFactorOf spread m.baseline_spread :=
    le_trans (by norm_num) (Set.mem_Icc.mp hvol).1
  have hnonneg : ∀ d : ℤ, 0 ≤ m.calculate_impact d order_size depth_at_best spread := by
    intro d
    unfold DelayImpactModel.calculate_impact
    split
    · exact le_refl 0
    · refine le_min hcap ?_
      have h1 : (0 : ℝ) ≤ Real.sqrt ((d : ℝ) / 1000) * m.base_coef :=
        mul_nonneg (Real.sqrt_nonneg _) hc
      exact mul_nonneg (mul_nonneg h1 hliq0) hvol0
  refine ⟨?_, ?_, hliq, hvol, ?_, ?_⟩
  · by_cases h1 : d1 ≤ 0
    · have : m.calculate_impact d1 order_size depth_at_best spread = 0 := by
        unfold DelayImpactModel.calculate_impact
        simp [h1]
      rw [this]
      exact hnonneg d2
    · have h2 : ¬ d2 ≤ 0 := fun h => h1 (le_trans hd h)
      unfold DelayImpactModel.calculate_impact
      simp only [h1, h2, if_false]
      refine min_le_min (le_refl _) ?_
      have hsq : Real.sqrt ((d1 : ℝ) / 1000) ≤ Real.sqrt ((d2 : ℝ) / 1000) := by
        apply Real.sqrt_le_sqrt
        have : (d1 : ℝ) ≤ (d2 : ℝ) := Int.cast_le.mpr hd
        linarith
      have hb : Real.sqrt ((d1 : ℝ) / 1000) * m.base_coef ≤
          Real.sqrt ((d2 : ℝ) / 1000) * m.base_coef :=
        mul_le_mul_of_nonneg_right hsq hc
      exact mul_le_mul_of_nonneg_right
        (mul_le_mul_of_nonneg_right hb hliq0) hvol0
  · intro d
    unfold DelayImpactModel.calculate_impact
    split
    · exact hcap
    · exact min_le_left _ _
  · intro hdz
    unfold liqFactorOf
    simp [hdz]
  · intro hsz
    unfold volFactorOf
    simp [hsz]

/-- C8, witness: the theorem applied to the default model with delays of
1 s and 4 s, a $50 order, $100 depth at best and a 0.04 spread. -/
theorem C8_delay_impact_witness :
    0 ≤ ({} : DelayImpactModel).base_coef ∧
    0 ≤ ({} : DelayImpactModel).max_impact ∧
    (1000 : ℤ) ≤ 4000 ∧
    ({} : DelayImpactModel).calculate_impact 1000 50 100 (1 / 25) ≤
      ({} : DelayImpactModel).calculate_impact 4000 50 100 (1 / 25) ∧
    ({} : DelayImpactModel).calculate_impact 4000 50 100 (1 / 25) ≤
      ({} : DelayImpactModel).max_impact ∧
    liqFactorOf 50 100 ∈ Set.Icc (1 / 2 : ℝ) 2 := by
  have h := C8_delay_impact_monotone_capped {} 1000 4000 50 100 (1 / 25)
    (by norm_num) (by norm_num) (by norm_num)
  exact ⟨by norm_num, by norm_num, by norm_num, h.1, h.2.1 4000, h.2.2.1⟩

/-! ## C7 — book-walk price and fill -/

/-- C7: for a non-empty side with positive level prices and sizes and a
positive requested notional, the walk accumulates a positive share count;
the execution price `total_cost / total_shares` lies in every price
interval containing all consumed level prices (hence between the best and
worst consumed price); `fill_pct` is exactly 100 iff the remaining
notional reached 0 during the walk and is strictly below 100 otherwise;
and `CachedOrderBook.get_execution_price` reports exactly this execution
price and fill percentage. -/
theorem C7_book_walk (levels : List OrderBookLevel) (amount : ℚ)
    (h1 : levels ≠ []) (h2 : 0 < amount)
    (h3 : ∀ x ∈ levels, 0 < x.price ∧ 0 < x.size) :
    0 < (walkBook levels amount).1 ∧
    (∀ lo hi, (∀ x ∈ consumedLevels levels amount, lo ≤ x.price ∧ x.price ≤ hi) →
      lo ≤ (walkBook levels amount).2.1 / (walkBook levels amount).1 ∧
      (walkBook levels amount).2.1 / (walkBook levels amount).1 ≤ hi) ∧
    ((amount - (walkBook levels amount).2.2) / amount * 100 = 100 ↔
      (walkBook levels amount).2.2 = 0) ∧
    ((walkBook levels amount).2.2 ≠ 0 →
      (amount - (walkBook levels amount).2.2) / amount * 100 < 100) ∧
    (∀ (b : CachedOrderBook) (side : Side),
      (if side = Side.BUY then b.asks else b.bids) = levels →
      (b.get_execution_price side amount).1 =
        (walkBook levels amount).2.1 / (walkBook levels amount).1 ∧
      (b.get_execution_price side amount).2.2 =
        (amount - (walkBook levels amount).2.2) / amount * 100) := by
  have hS : 0 < (walkBook levels amount).1 := by
    match levels, h1 with
    | l :: ls, _ => exact walk_shares_pos l ls amount h2 h3
  have hA : amount ≠ 0 := ne_of_gt h2
  have hrem := walk_remaining_bounds levels amount (le_of_lt h2)
    fun x hx => ⟨le_of_lt (h3 x hx).1, le_of_lt (h3 x hx).2⟩
  refine ⟨hS, ?_, ?_, ?_, ?_⟩
  · intro lo hi hc
    have hb := walk_cost_bounds levels amount lo hi h2
      (fun x hx => ⟨(h3 x hx).1, le_of_lt (h3 x hx).2⟩) hc
    exact ⟨(le_div_iff₀ hS).mpr hb.1, (div_le_iff₀ hS).mpr hb.2⟩
  · constructor
    · intro h
      field_simp at h
      linarith
    · intro h
      rw [h, sub_zero, div_self hA, one_mul]
  · intro hne
    have h0 : 0 < (walkBook levels amount).2.2 := lt_of_le_of_ne hrem.1 (Ne.symm hne)
    have : (amount - (walkBook levels amount).2.2) / amount < 1 :=
      (div_lt_one h2).mpr (by linarith)
    calc (amount - (walkBook levels amount).2.2) / amount * 100 < 1 * 100 :=
          mul_lt_mul_of_pos_right this (by norm_num)
      _ = 100 := by norm_num
  · intro b side hbs
    simp only [CachedOrderBook.get_execution_price, hbs, h1, if_neg, if_false,
      ne_of_gt hS, h2, if_pos, if_true]
    exact ⟨trivial, trivial⟩

/-- C7, witness: the theorem applied to the ask ladder
`[(0.40, 10), (0.42, 20)]` with a $12 buy (which fully fills). -/
theorem C7_book_walk_witness :
    ([⟨2 / 5, 10⟩, ⟨21 / 50, 20⟩] : List OrderBookLevel) ≠ [] ∧
    (0 : ℚ) < 12 ∧
    0 < (walkBook [⟨2 / 5, 10⟩, ⟨21 / 50, 20⟩] 12).1 ∧
    ((12 - (walkBook [⟨2 / 5, 10⟩, ⟨21 / 50, 20⟩] 12).2.2) / 12 * 100 = 100 ↔
      (walkBook [⟨2 / 5, 10⟩, ⟨21 / 50, 20⟩] 12).2.2 = 0) := by
  have h := C7_book_walk [⟨2 / 5, 10⟩, ⟨21 / 50, 20⟩] 12 (by simp) (by norm_num)
    (by intro x hx; fin_cases hx <;> norm_num)
  exact ⟨by simp, by norm_num, h.1, h.2.2.1⟩

/-! ## Ladder helper lemmas -/

/-- `sortLevels true` yields a ladder descending in price. -/
theorem sortLevels_sorted_desc (l : List OrderBookLevel) :
    (sortLevels true l).Chain' (fun a b => b.price ≤ a.price) := by
  have hp := @List.sorted_mergeSort _
    (fun a b : OrderBookLevel => decide (b.price ≤ a.price))
    (fun a b c hab hbc => by
      simp only [decide_eq_true_eq] at *
      exact le_trans hbc hab)
    (fun a b => by simpa using le_total b.price a.price) l
  have : (sortLevels true l).Pairwise (fun a b => b.price ≤ a.price) := by
    simpa [sortLevels] using hp
  exact this.chain'

/-- `sortLevels false` yields a ladder ascending in price. -/
theorem sortLevels_sorted_asc (l : List OrderBookLevel) :
    (sortLevels false l).Chain' (fun a b => a.price ≤ b.price) := by
  have hp := @List.sorted_mergeSort _
    (fun a b : OrderBookLevel => decide (a.price ≤ b.price))
    (fun a b c hab hbc => by
      simp only [decide_eq_true_eq] at *
      exact le_trans hab hbc)
    (fun a b => by simpa using le_total a.price b.price) l
  have : (sortLevels false l).Pairwise (fun a b => a.price ≤ b.price) := by
    simpa [sortLevels] using hp
  exact this.chain'

/-- Sorting does not change the set of levels. -/
theorem mem_sortLevels (rev : Bool) (l : List OrderBookLevel) (x : OrderBookLevel) :
    x ∈ sortLevels rev l ↔ x ∈ l := by
  simp [sortLevels]

/-- The levels produced by a successful `replaceMatch` either come from the
input or are the freshly-written level `⟨·, size⟩` with `size ≠ 0`. -/
theorem replaceMatch_mem (p size : ℚ) (levels out : List OrderBookLevel)
    (h : replaceMatch p size levels = some out) :
    ∀ x ∈ out, x ∈ levels ∨ (x.size = size ∧ size ≠ 0) := by
  induction levels generalizing out with
  | nil => simp [replaceMatch] at h
  | cons l ls ih =>
    simp only [replaceMatch] at h
    split at h
    · by_cases hz : size = 0
      · simp only [hz, if_pos] at h
        cases h
        intro x hx
        exact Or.inl (List.mem_cons_of_mem l hx)
      · simp only [hz, if_neg, if_false] at h
        cases h
        intro x hx
        rcases List.mem_cons.mp hx with hx1 | hx2
        · exact Or.inr ⟨by rw [hx1], hz⟩
        · exact Or.inl (List.mem_cons_of_mem l hx2)
    · rcases Option.map_eq_some'.mp h with ⟨out2, hout2, hcons⟩
      subst hcons
      intro x hx
      rcases List.mem_cons.mp hx with hx1 | hx2
      · exact Or.inl (by rw [hx1]; exact List.mem_cons_self l ls)
      · rcases ih out2 hout2 x hx2 with h1 | h2
        · exact Or.inl (List.mem_cons_of_mem l h1)
        · exact Or.inr h2

/-- `update_level` never introduces a zero-size level. -/
theorem update_level_noZero (levels : List OrderBookLevel) (p size : ℚ) (rev : Bool)
    (h : ∀ x ∈ levels, x.size ≠ 0) :
    ∀ x ∈ update_level levels p size rev, x.size ≠ 0 := by
  intro x hx
  rcases hrm : replaceMatch p size levels with _ | out
  · simp only [update_level, hrm] at hx
    by_cases hs : 0 < size
    · rw [if_pos hs] at hx
      rcases List.mem_append.mp ((mem_sortLevels rev _ x).mp hx) with h1 | h2
      · exact h x h1
      · have hx2 : x = (⟨p, size⟩ : OrderBookLevel) := by simpa using h2
        rw [hx2]
        exact ne_of_gt hs
    · rw [if_neg hs] at hx
      exact h x hx
  · simp only [update_level, hrm] at hx
    rcases replaceMatch_mem p size levels out hrm x hx with h1 | h2
    · exact h x h1
    · rw [h2.1]
      exact h2.2

/-- An empty sort output means an empty input. -/
theorem sortLevels_eq_nil (rev : Bool) (l : List OrderBookLevel)
    (h : sortLevels rev l = []) : l = [] := by
  have := congrArg List.length h
  simpa [sortLevels] using this

/-- `recalculate` sorts both ladders and does not change their membership. -/
theorem recalculate_ladders (b : CachedOrderBook) :
    (b.recalculate.bids.Chain' fun a c => c.price ≤ a.price) ∧
    (b.recalculate.asks.Chain' fun a c => a.price ≤ c.price) ∧
    (∀ x, x ∈ b.recalculate.bids ↔ x ∈ b.bids) ∧
    (∀ x, x ∈ b.recalculate.asks ↔ x ∈ b.asks) := by
  rcases hbs : sortLevels true b.bids with _ | ⟨lb, lbs⟩ <;>
    rcases has : sortLevels false b.asks with _ | ⟨la, las⟩ <;>
      simp only [CachedOrderBook.recalculate, hbs, has] <;> split <;>
        refine ⟨?_, ?_, ?_, ?_⟩ <;>
          first
            | exact List.chain'_nil
            | (rw [← hbs]
               exact sortLevels_sorted_desc b.bids)
            | (rw [← has]
               exact sortLevels_sorted_asc b.asks)
            | (rw [sortLevels_eq_nil true b.bids hbs]
               exact List.chain'_nil)
            | (rw [sortLevels_eq_nil false b.asks has]
               exact List.chain'_nil)
            | (intro x
               rw [← hbs]
               exact mem_sortLevels true b.bids x)
            | (intro x
               rw [← has]
               exact mem_sortLevels false b.asks x)
            | (intro x
               exact Iff.rfl)

/-- When the unique tolerance-match of `p` in the ladder sits at index `i`,
`replaceMatch` with size 0 deletes exactly that entry. -/
theorem replaceMatch_erase (levels : List OrderBookLevel) (p : ℚ) (i : ℕ)
    (hi : i < levels.length)
    (hm : ∀ j (hj : j < levels.length),
      (|(levels.get ⟨j, hj⟩).price - p| < 1 / 10000 ↔ j = i)) :
    replaceMatch p 0 levels = some (levels.eraseIdx i) := by
  induction levels generalizing i with
  | nil => simp at hi
  | cons l ls ih =>
    cases i with
    | zero =>
      have h0 : |l.price - p| < 1 / 10000 := by
        have := (hm 0 (by simp)).mpr rfl
        simpa using this
      simp only [replaceMatch]
      rw [if_pos h0]
      simp
    | succ k =>
      have h0 : ¬ |l.price - p| < 1 / 10000 := by
        intro hc
        have : (0 : ℕ) = k + 1 := by
          have := (hm 0 (by simp)).mp (by simpa using hc)
          simpa using this
        exact Nat.succ_ne_zero k this.symm
      have hk : k < ls.length := by simpa using hi
      have hm2 : ∀ j (hj : j < ls.length),
          (|(ls.get ⟨j, hj⟩).price - p| < 1 / 10000 ↔ j = k) := by
        intro j hj
        have := hm (j + 1) (by simpa using Nat.succ_lt_succ hj)
        simpa using this
      simp only [replaceMatch]
      rw [if_neg h0, ih k hk hm2]
      simp

/-- One delta change preserves the absence of zero-size levels. -/
theorem applyChange_noZero (b : CachedOrderBook) (c : Change)
    (hb : ∀ x ∈ b.bids, x.size ≠ 0) (ha : ∀ x ∈ b.asks, x.size ≠ 0) :
    (∀ x ∈ (b.applyChange c).bids, x.size ≠ 0) ∧
    (∀ x ∈ (b.applyChange c).asks, x.size ≠ 0) := by
  cases hcs : c.side
  · simp only [CachedOrderBook.applyChange, hcs]
    exact ⟨update_level_noZero b.bids c.price c.size true hb, ha⟩
  · simp only [CachedOrderBook.applyChange, hcs]
    exact ⟨hb, update_level_noZero b.asks c.price c.size false ha⟩

/-- One book message preserves the ladder invariant (re-sorted ladders with
no zero-size level), provided a snapshot message carries no zero-size
level. -/
theorem applyMsg_inv (b : CachedOrderBook) (msg : BookMsg)
    (hb : ∀ x ∈ b.bids, x.size ≠ 0) (ha : ∀ x ∈ b.asks, x.size ≠ 0)
    (hmsg : ∀ bids asks, msg = BookMsg.snapshot bids asks →
      (∀ x ∈ bids, x.size ≠ 0) ∧ (∀ x ∈ asks, x.size ≠ 0)) :
    ((applyMsg b msg).bids.Chain' fun a c => c.price ≤ a.price) ∧
    ((applyMsg b msg).asks.Chain' fun a c => a.price ≤ c.price) ∧
    (∀ x ∈ (applyMsg b msg).bids, x.size ≠ 0) ∧
    (∀ x ∈ (applyMsg b msg).asks, x.size ≠ 0) := by
  cases msg with
  | snapshot sb sa =>
    obtain ⟨hsb, hsa⟩ := hmsg sb sa rfl
    have hr := recalculate_ladders { b with bids := sb, asks := sa }
    simp only [applyMsg, CachedOrderBook.update_from_snapshot]
    exact ⟨hr.1, hr.2.1,
      fun x hx => hsb x ((hr.2.2.1 x).mp hx),
      fun x hx => hsa x ((hr.2.2.2 x).mp hx)⟩
  | delta changes =>
    have hfold : ∀ (cs : List Change) (b0 : CachedOrderBook),
        (∀ x ∈ b0.bids, x.size ≠ 0) → (∀ x ∈ b0.asks, x.size ≠ 0) →
        (∀ x ∈ (cs.foldl CachedOrderBook.applyChange b0).bids, x.size ≠ 0) ∧
        (∀ x ∈ (cs.foldl CachedOrderBook.applyChange b0).asks, x.size ≠ 0) := by
      intro cs
      induction cs with
      | nil => exact fun b0 h1 h2 => ⟨h1, h2⟩
      | cons c cs ih =>
        intro b0 h1 h2
        have hc := applyChange_noZero b0 c h1 h2
        exact ih (b0.applyChange c) hc.1 hc.2
    have hz := hfold changes b hb ha
    have hr := recalculate_ladders (changes.foldl CachedOrderBook.applyChange b)
    simp only [applyMsg, CachedOrderBook.update_from_delta]
    exact ⟨hr.1, hr.2.1,
      fun x hx => hz.1 x ((hr.2.2.1 x).mp hx),
      fun x hx => hz.2 x ((hr.2.2.2 x).mp hx)⟩

/-! ## C9 — ladder invariants under snapshot/delta sequences -/

/-- C9, counterexample: two violations at concrete inputs.  (i)
`update_from_snapshot` stores the feed levels unfiltered, so a snapshot
containing a zero-size bid leaves that zero-size level in the ladder.
(ii) level matching uses a `0.0001` price tolerance and removes the
*first* level within tolerance: on the ladder
`[(0.50005, 3), (0.5, 4)]`, a delta of size 0 at the existing price `0.5`
removes the *other* level `(0.50005, 3)`, not the one at `0.5`. -/
theorem C9_zero_size_and_tolerance_violations :
    (applyMsg initBook (BookMsg.snapshot [⟨1 / 2, 0⟩] [])).bids =
      [⟨1 / 2, 0⟩] ∧
    update_level [⟨10001 / 20000, 3⟩, ⟨1 / 2, 4⟩] (1 / 2) 0 true =
      [⟨1 / 2, 4⟩] := by
  constructor
  · norm_num [applyMsg, CachedOrderBook.update_from_snapshot,
      CachedOrderBook.recalculate, sortLevels, initBook]
  · norm_num [update_level, replaceMatch, abs]

/-- C9 (amended): for every sequence of snapshot and delta messages whose
snapshots carry no zero-size level, the resulting bid ladder is descending
in price, the ask ladder ascending, and neither ladder contains a
zero-size level (deltas can never introduce one; snapshots are stored
unfiltered, so the hypothesis on them is necessary).  Moreover a size-0
delta at a price whose *unique* tolerance match in the ladder is the level
at index `i` removes exactly that level (`eraseIdx i`) and no other. -/
theorem C9_ladder_invariants (msgs : List BookMsg)
    (hsnap : ∀ bids asks, BookMsg.snapshot bids asks ∈ msgs →
      (∀ x ∈ bids, x.size ≠ 0) ∧ (∀ x ∈ asks, x.size ≠ 0)) :
    ((msgs.foldl applyMsg initBook).bids.Chain' fun a c => c.price ≤ a.price) ∧
    ((msgs.foldl applyMsg initBook).asks.Chain' fun a c => a.price ≤ c.price) ∧
    (∀ x ∈ (msgs.foldl applyMsg initBook).bids, x.size ≠ 0) ∧
    (∀ x ∈ (msgs.foldl applyMsg initBook).asks, x.size ≠ 0) ∧
    (∀ (levels : List OrderBookLevel) (p : ℚ) (rev : Bool) (i : ℕ)
      (hi : i < levels.length),
      (∀ j (hj : j < levels.length),
        (|(levels.get ⟨j, hj⟩).price - p| < 1 / 10000 ↔ j = i)) →
      update_level levels p 0 rev = levels.eraseIdx i) := by
  have hrun : ∀ (ms : List BookMsg) (b : CachedOrderBook),
      (b.bids.Chain' fun a c => c.price ≤ a.price) →
      (b.asks.Chain' fun a c => a.price ≤ c.price) →
      (∀ x ∈ b.bids, x.size ≠ 0) → (∀ x ∈ b.asks, x.size ≠ 0) →
      (∀ bids asks, BookMsg.snapshot bids asks ∈ ms →
        (∀ x ∈ bids, x.size ≠ 0) ∧ (∀ x ∈ asks, x.size ≠ 0)) →
      ((ms.foldl applyMsg b).bids.Chain' fun a c => c.price ≤ a.price) ∧
      ((ms.foldl applyMsg b).asks.Chain' fun a c => a.price ≤ c.price) ∧
      (∀ x ∈ (ms.foldl applyMsg b).bids, x.size ≠ 0) ∧
      (∀ x ∈ (ms.foldl applyMsg b).asks, x.size ≠ 0) := by
    intro ms
    induction ms with
    | nil => exact fun b hd1 hd2 h1 h2 _ => ⟨hd1, hd2, h1, h2⟩
    | cons m ms ih =>
      intro b hc1 hc2 h1 h2 hms
      have hstep := applyMsg_inv b m h1 h2
        (fun bids asks hm => hms bids asks (by rw [hm]; exact List.mem_cons_self _ _))
      exact ih (applyMsg b m) hstep.1 hstep.2.1 hstep.2.2.1 hstep.2.2.2
        fun bids asks hmem => hms bids asks (List.mem_cons_of_mem m hmem)
  have h := hrun msgs initBook (by simp [initBook]) (by simp [initBook])
    (by simp [initBook]) (by simp [initBook]) hsnap
  refine ⟨h.1, h.2.1, h.2.2.1, h.2.2.2, ?_⟩
  intro levels p rev i hi hm
  simp only [update_level, replaceMatch_erase levels p i hi hm]

/-- C9, witness: the amended theorem applied to a snapshot of two positive
bid levels followed by a delta removing one of them, and — for the removal
conjunct — to the ladder `[(0.6, 5), (0.4, 7)]` with an exact deletion at
`0.4` (index 1, the unique tolerance match). -/
theorem C9_ladder_invariants_witness :
    (∀ bids asks,
      BookMsg.snapshot bids asks ∈
        [BookMsg.snapshot [⟨3 / 5, 5⟩, ⟨2 / 5, 7⟩] [],
          BookMsg.delta [⟨Side.BUY, 2 / 5, 0⟩]] →
      (∀ x ∈ bids, x.size ≠ 0) ∧ (∀ x ∈ asks, x.size ≠ 0)) ∧
    (([BookMsg.snapshot [⟨3 / 5, 5⟩, ⟨2 / 5, 7⟩] [],
        BookMsg.delta [⟨Side.BUY, 2 / 5, 0⟩]].foldl applyMsg
        initBook).bids.Chain' fun a c => c.price ≤ a.price) ∧
    (∀ x ∈ ([BookMsg.snapshot [⟨3 / 5, 5⟩, ⟨2 / 5, 7⟩] [],
        BookMsg.delta [⟨Side.BUY, 2 / 5, 0⟩]].foldl applyMsg
        initBook).bids, x.size ≠ 0) ∧
    update_level [⟨3 / 5, 5⟩, ⟨2 / 5, 7⟩] (2 / 5) 0 true =
      List.eraseIdx [⟨3 / 5, 5⟩, ⟨2 / 5, 7⟩] 1 := by
  have hs : ∀ bids asks,
      BookMsg.snapshot bids asks ∈
        [BookMsg.snapshot [(⟨3 / 5, 5⟩ : OrderBookLevel), ⟨2 / 5, 7⟩] [],
          BookMsg.delta [⟨Side.BUY, 2 / 5, 0⟩]] →
      (∀ x ∈ bids, x.size ≠ 0) ∧ (∀ x ∈ asks, x.size ≠ 0) := by
    intro bids asks hmem
    rcases List.mem_cons.mp hmem with hm1 | hm2
    · cases hm1
      constructor
      · intro x hx
        fin_cases hx <;> norm_num
      · intro x hx
        simp at hx
    · simp at hm2
  have h := C9_ladder_invariants
    [BookMsg.snapshot [⟨3 / 5, 5⟩, ⟨2 / 5, 7⟩] [],
      BookMsg.delta [⟨Side.BUY, 2 / 5, 0⟩]] hs
  refine ⟨hs, h.1, h.2.2.1, ?_⟩
  apply h.2.2.2.2 [⟨3 / 5, 5⟩, ⟨2 / 5, 7⟩] (2 / 5) true 1 (by norm_num)
  intro j hj
  simp only [List.length_cons, List.length_nil] at hj
  interval_cases j <;> norm_num [abs]

/-! ## Rate-limiter helper lemmas -/

/-- On a list sorted ascending, the front-trimming loop removes exactly the
timestamps below the cutoff. -/
theorem trimWindow_eq_filter (c : ℚ) (l : List ℚ) (h : l.Pairwise (· ≤ ·)) :
    trimWindow c l = l.filter (fun t => decide (c ≤ t)) := by
  induction l with
  | nil => rfl
  | cons t ts ih =>
    rcases List.pairwise_cons.mp h with ⟨hall, htail⟩
    by_cases ht : t < c
    · have : decide (c ≤ t) = false := by simpa using not_le.mpr ht
      simp [trimWindow, ht, this, ih htail]
    · have hct : c ≤ t := not_lt.mp ht
      have : decide (c ≤ t) = true := by simpa using hct
      simp only [trimWindow, if_neg ht, List.filter_cons, this, if_true, if_pos]
      rw [List.filter_eq_self.mpr]
      intro a ha
      simpa using le_trans hct (hall a ha)

/-- The count of admitted timestamps inside the closed window `[t, t + w]`
splits over an append. -/
theorem countWin_append (w t : ℚ) (l1 l2 : List ℚ) :
    countWin w t (l1 ++ l2) = countWin w t l1 + countWin w t l2 := by
  simp [countWin]

/-- Sliding-window invariant of `allow_request`: starting from a limiter
whose deque holds exactly the already-admitted timestamps not older than
`last - W` (where `last` bounds all of them and precedes all future call
times), every closed window of width `W` keeps at most `N` admitted
timestamps. -/
theorem rl_window_bound (N : ℕ) (W : ℚ) (hW : 0 ≤ W) (ts : List ℚ) :
    ∀ (A : List ℚ) (last : ℚ) (rl : RateLimiter),
    rl.requests_per_minute = N → rl.window_size = W →
    rl.requests = A.filter (fun s => decide (last - W ≤ s)) →
    A.Pairwise (· ≤ ·) →
    (∀ a ∈ A, a ≤ last) →
    (last :: ts).Pairwise (· ≤ ·) →
    (∀ t, countWin W t A ≤ N) →
    ∀ t, countWin W t (A ++ rlAdmitted rl ts) ≤ N := by
  induction ts with
  | nil =>
    intro A last rl hN hW2 hreq hA hAlast hts hP t
    simpa [rlAdmitted] using hP t
  | cons u us ih =>
    intro A last rl hN hW2 hreq hA hAlast hts hP t
    have hlu : last ≤ u := (List.pairwise_cons.mp hts).1 u (List.mem_cons_self u us)
    have hus : (u :: us).Pairwise (· ≤ ·) := (List.pairwise_cons.mp hts).2
    have hQ : trimWindow (u - rl.window_size) rl.requests =
        A.filter (fun s => decide (u - W ≤ s)) := by
      rw [hreq, hW2, trimWindow_eq_filter _ _ (hA.sublist (List.filter_sublist A)),
        List.filter_filter]
      apply List.filter_congr
      intro x _
      by_cases hx : u - W ≤ x
      · have h1 : last - W ≤ x := le_trans (by linarith) hx
        simp [hx, h1]
      · simp [hx]
    have hAu : ∀ a ∈ A, a ≤ u := fun a ha => le_trans (hAlast a ha) hlu
    simp only [rlAdmitted, RateLimiter.allow_request, hQ]
    by_cases hadmit : (A.filter fun s => decide (u - W ≤ s)).length < rl.requests_per_minute
    · rw [if_pos hadmit]
      simp only [if_true]
      have hres : A ++ u :: rlAdmitted
          { rl with requests := (A.filter fun s => decide (u - W ≤ s)) ++ [u] } us =
          (A ++ [u]) ++ rlAdmitted
          { rl with requests := (A.filter fun s => decide (u - W ≤ s)) ++ [u] } us := by
        simp
      rw [hres]
      refine ih (A ++ [u]) u
        { rl with requests := (A.filter fun s => decide (u - W ≤ s)) ++ [u] }
        hN hW2 ?_ ?_ ?_ hus ?_ t
      · have hsing : List.filter (fun s => decide (u - W ≤ s)) [u] = [u] := by
          rw [List.filter_eq_self]
          intro a ha
          have ha2 : a = u := by simpa using ha
          rw [ha2]
          simp only [decide_eq_true_eq]
          linarith
        rw [List.filter_append, hsing]
      · rw [List.pairwise_append]
        refine ⟨hA, List.pairwise_singleton _ _, fun a ha b hb => ?_⟩
        have hbu : b = u := by simpa using hb
        rw [hbu]
        exact hAu a ha
      · intro a ha
        rcases List.mem_append.mp ha with h1 | h2
        · exact hAu a h1
        · have : a = u := by simpa using h2
          rw [this]
      · intro t2
        rw [countWin_append]
        by_cases hu : t2 ≤ u ∧ u ≤ t2 + W
        · have h1 : countWin W t2 [u] = 1 := by
            simp [countWin, hu.1, hu.2]
          have h2 : countWin W t2 A ≤ (A.filter fun s => decide (u - W ≤ s)).length := by
            apply List.Sublist.length_le
            apply List.monotone_filter_right
            intro a ha
            simp only [Bool.and_eq_true, decide_eq_true_eq] at ha ⊢
            have := hu.2
            linarith [ha.1]
          rw [h1]
          omega
        · have h1 : countWin W t2 [u] = 0 := by
            have hcond : (decide (t2 ≤ u) && decide (u ≤ t2 + W)) = false := by
              rcases not_and_or.mp hu with h | h <;> simp [h]
            simp [countWin, hcond]
          rw [h1]
          simpa using hP t2
    · rw [if_neg hadmit]
      simp only [Bool.false_eq_true, if_false]
      refine ih A u
        { rl with requests := A.filter fun s => decide (u - W ≤ s) }
        hN hW2 ?_ hA hAu hus hP t
      simp

/-! ## C6 — rate limiter sliding window -/

/-- C6: (i) for every non-decreasing sequence of call times fed to a fresh
default limiter, any closed rolling window of 60 s contains at most 120
admitted timestamps; (ii) a request is admitted iff, after trimming
timestamps older than `now - window_size`, fewer than
`requests_per_minute` admitted timestamps remain; (iii)
`time_until_allowed` returns 0 when under the limit, and otherwise the
time until the oldest retained timestamp leaves the window,
`max 0 (oldest + window_size - now)`. -/
theorem C6_rate_limiter_window (ts : List ℚ) (hts : ts.Pairwise (· ≤ ·))
    (rl : RateLimiter) (now : ℚ) :
    (∀ t, countWin 60 t (rlAdmitted initRL ts) ≤ 120) ∧
    ((rl.allow_request now).1 = true ↔
      (trimWindow (now - rl.window_size) rl.requests).length <
        rl.requests_per_minute) ∧
    (rl.requests.length < rl.requests_per_minute →
      rl.time_until_allowed now = 0) ∧
    (∀ oldest rest, rl.requests = oldest :: rest →
      ¬ rl.requests.length < rl.requests_per_minute →
      rl.time_until_allowed now = max 0 (oldest + rl.window_size - now)) := by
  refine ⟨?_, ?_, ?_, ?_⟩
  · cases ts with
    | nil =>
      intro t
      simp [rlAdmitted, countWin]
    | cons u us =>
      intro t
      have hts2 : (u :: u :: us).Pairwise (· ≤ ·) := by
        refine List.pairwise_cons.mpr ⟨?_, hts⟩
        intro x hx
        rcases List.mem_cons.mp hx with h1 | h2
        · rw [h1]
        · exact (List.pairwise_cons.mp hts).1 x h2
      have h := rl_window_bound 120 60 (by norm_num) (u :: us) [] u initRL
        rfl rfl rfl List.Pairwise.nil (by simp) hts2 (by simp [countWin]) t
      simpa using h
  · simp only [RateLimiter.allow_request]
    split <;> simp_all
  · intro h
    simp [RateLimiter.time_until_allowed, h]
  · intro oldest rest hreq hn
    rw [RateLimiter.time_until_allowed, if_neg hn, hreq]

/-- C6, witness: the theorem applied to call times `[0, 1, 2]` on the
default limiter, and to a small limiter (limit 2, window 60) whose queue
`[0, 1]` is full at time 2. -/
theorem C6_rate_limiter_window_witness :
    ([0, 1, 2] : List ℚ).Pairwise (· ≤ ·) ∧
    countWin 60 0 (rlAdmitted initRL [0, 1, 2]) ≤ 120 ∧
    ((RateLimiter.allow_request
        { requests_per_minute := 2, window_size := 60, requests := [0, 1] } 2).1 =
          true ↔
      (trimWindow
          (2 - ({ requests_per_minute := 2, window_size := 60,
                  requests := [0, 1] } : RateLimiter).window_size)
          ({ requests_per_minute := 2, window_size := 60,
             requests := [0, 1] } : RateLimiter).requests).length <
        ({ requests_per_minute := 2, window_size := 60,
           requests := [0, 1] } : RateLimiter).requests_per_minute) ∧
    RateLimiter.time_until_allowed
        { requests_per_minute := 2, window_size := 60, requests := [0, 1] } 2 =
      max 0 (0 + ({ requests_per_minute := 2, window_size := 60,
                    requests := [0, 1] } : RateLimiter).window_size - 2) := by
  have hp : ([0, 1, 2] : List ℚ).Pairwise (· ≤ ·) := by
    norm_num [List.pairwise_cons]
  have h := C6_rate_limiter_window [0, 1, 2] hp
    { requests_per_minute := 2, window_size := 60, requests := [0, 1] } 2
  refine ⟨hp, h.1 0, h.2.1, ?_⟩
  exact h.2.2.2 0 [1] rfl (by norm_num)

end PolyTrader
